import Mathlib

/-
Verification of the color-discovery / color-substitution logic of
graphical_color_replacer.py (a GUI tool that finds HTML/CSS color tokens in a
text file and writes a sibling file with user-chosen replacements applied).

The embedding models:
  * color_to_hex (source lines 17-26),
  * the two discovery scans and their union/sort (source lines 35-42),
  * the replacement loop of _save_and_exit (source lines 126-141),
  * the session state (discovered tokens, replacement map) and its updates
    (_on_swatch_click, lines 115-124).

Python strings are modelled as Lean String values operated on through their
character lists.  The regular expressions in the source use only literal
characters, hex-digit character classes, the bounded repetition {1,2}, a
name alternation, and word boundaries; their leftmost, greedy, non-overlapping
findall/sub semantics are implemented directly as character-list scans.
All text handled by the program in the claims is ASCII, and case folding /
word-character tests are modelled at ASCII precision (Python re and str
semantics coincide with this on ASCII input).
-/

/-- ASCII word character, as in the regex class \w used by the \b word
boundary: letters, digits, or underscore. -/
def isWordChar (c : Char) : Bool := c.isAlphanum || c == '_'

/-- Hexadecimal digit, the character class [a-fA-F0-9] of the hex regex. -/
def isHexDig (c : Char) : Bool :=
  c.isDigit || ('a' ≤ c && c ≤ 'f') || ('A' ≤ c && c ≤ 'F')

/-- Python str.isalpha restricted to ASCII: nonempty and all letters.
The source uses old.isalpha() to decide between the whole-word pattern and
the plain escaped-substring pattern (line 134). -/
def pyIsAlpha (s : String) : Bool := !s.data.isEmpty && s.data.all Char.isAlpha

/-- Modelled from the spec: the fixed CSS3 name-to-hex table of the external
webcolors library (webcolors.CSS3_NAMES_TO_HEX), whose source is not part of
this repository.  The spec describes it as "the fixed CSS3 name→hex table
(case-insensitive)" with roughly 150 entries; these are the 147 CSS3 extended
color keywords with their standard hex values, keys in lowercase. -/
def css3NamesToHex : List (String × String) :=
  [("aliceblue", "#f0f8ff"), ("antiquewhite", "#faebd7"), ("aqua", "#00ffff"),
   ("aquamarine", "#7fffd4"), ("azure", "#f0ffff"), ("beige", "#f5f5dc"),
   ("bisque", "#ffe4c4"), ("black", "#000000"), ("blanchedalmond", "#ffebcd"),
   ("blue", "#0000ff"), ("blueviolet", "#8a2be2"), ("brown", "#a52a2a"),
   ("burlywood", "#deb887"), ("cadetblue", "#5f9ea0"), ("chartreuse", "#7fff00"),
   ("chocolate", "#d2691e"), ("coral", "#ff7f50"), ("cornflowerblue", "#6495ed"),
   ("cornsilk", "#fff8dc"), ("crimson", "#dc143c"), ("cyan", "#00ffff"),
   ("darkblue", "#00008b"), ("darkcyan", "#008b8b"), ("darkgoldenrod", "#b8860b"),
   ("darkgray", "#a9a9a9"), ("darkgrey", "#a9a9a9"), ("darkgreen", "#006400"),
   ("darkkhaki", "#bdb76b"), ("darkmagenta", "#8b008b"),
   ("darkolivegreen", "#556b2f"), ("darkorange", "#ff8c00"),
   ("darkorchid", "#9932cc"), ("darkred", "#8b0000"), ("darksalmon", "#e9967a"),
   ("darkseagreen", "#8fbc8f"), ("darkslateblue", "#483d8b"),
   ("darkslategray", "#2f4f4f"), ("darkslategrey", "#2f4f4f"),
   ("darkturquoise", "#00ced1"), ("darkviolet", "#9400d3"),
   ("deeppink", "#ff1493"), ("deepskyblue", "#00bfff"), ("dimgray", "#696969"),
   ("dimgrey", "#696969"), ("dodgerblue", "#1e90ff"), ("firebrick", "#b22222"),
   ("floralwhite", "#fffaf0"), ("forestgreen", "#228b22"),
   ("fuchsia", "#ff00ff"), ("gainsboro", "#dcdcdc"), ("ghostwhite", "#f8f8ff"),
   ("gold", "#ffd700"), ("goldenrod", "#daa520"), ("gray", "#808080"),
   ("grey", "#808080"), ("green", "#008000"), ("greenyellow", "#adff2f"),
   ("honeydew", "#f0fff0"), ("hotpink", "#ff69b4"), ("indianred", "#cd5c5c"),
   ("indigo", "#4b0082"), ("ivory", "#fffff0"), ("khaki", "#f0e68c"),
   ("lavender", "#e6e6fa"), ("lavenderblush", "#fff0f5"),
   ("lawngreen", "#7cfc00"), ("lemonchiffon", "#fffacd"),
   ("lightblue", "#add8e6"), ("lightcoral", "#f08080"),
   ("lightcyan", "#e0ffff"), ("lightgoldenrodyellow", "#fafad2"),
   ("lightgray", "#d3d3d3"), ("lightgrey", "#d3d3d3"),
   ("lightgreen", "#90ee90"), ("lightpink", "#ffb6c1"),
   ("lightsalmon", "#ffa07a"), ("lightseagreen", "#20b2aa"),
   ("lightskyblue", "#87cefa"), ("lightslategray", "#778899"),
   ("lightslategrey", "#778899"), ("lightsteelblue", "#b0c4de"),
   ("lightyellow", "#ffffe0"), ("lime", "#00ff00"), ("limegreen", "#32cd32"),
   ("linen", "#faf0e6"), ("magenta", "#ff00ff"), ("maroon", "#800000"),
   ("mediumaquamarine", "#66cdaa"), ("mediumblue", "#0000cd"),
   ("mediumorchid", "#ba55d3"), ("mediumpurple", "#9370db"),
   ("mediumseagreen", "#3cb371"), ("mediumslateblue", "#7b68ee"),
   ("mediumspringgreen", "#00fa9a"), ("mediumturquoise", "#48d1cc"),
   ("mediumvioletred", "#c71585"), ("midnightblue", "#191970"),
   ("mintcream", "#f5fffa"), ("mistyrose", "#ffe4e1"), ("moccasin", "#ffe4b5"),
   ("navajowhite", "#ffdead"), ("navy", "#000080"), ("oldlace", "#fdf5e6"),
   ("olive", "#808000"), ("olivedrab", "#6b8e23"), ("orange", "#ffa500"),
   ("orangered", "#ff4500"), ("orchid", "#da70d6"),
   ("palegoldenrod", "#eee8aa"), ("palegreen", "#98fb98"),
   ("paleturquoise", "#afeeee"), ("palevioletred", "#db7093"),
   ("papayawhip", "#ffefd5"), ("peachpuff", "#ffdab9"), ("peru", "#cd853f"),
   ("pink", "#ffc0cb"), ("plum", "#dda0dd"), ("powderblue", "#b0e0e6"),
   ("purple", "#800080"), ("red", "#ff0000"), ("rosybrown", "#bc8f8f"),
   ("royalblue", "#4169e1"), ("saddlebrown", "#8b4513"), ("salmon", "#fa8072"),
   ("sandybrown", "#f4a460"), ("seagreen", "#2e8b57"), ("seashell", "#fff5ee"),
   ("sienna", "#a0522d"), ("silver", "#c0c0c0"), ("skyblue", "#87ceeb"),
   ("slateblue", "#6a5acd"), ("slategray", "#708090"),
   ("slategrey", "#708090"), ("snow", "#fffafa"), ("springgreen", "#00ff7f"),
   ("steelblue", "#4682b4"), ("tan", "#d2b48c"), ("teal", "#008080"),
   ("thistle", "#d8bfd8"), ("tomato", "#ff6347"), ("turquoise", "#40e0d0"),
   ("violet", "#ee82ee"), ("wheat", "#f5deb3"), ("white", "#ffffff"),
   ("whitesmoke", "#f5f5f5"), ("yellow", "#ffff00"),
   ("yellowgreen", "#9acd32")]

/-- ASCII lowercase of a string, character by character.  Models Python
str.lower and the case folding of re.IGNORECASE on the ASCII text the
program handles. -/
def strLower (s : String) : String := String.mk (s.data.map Char.toLower)

/-- Association-list lookup by exact key.  Models the dict lookup performed
by webcolors.name_to_hex after it lowercases its argument. -/
def lookupName : List (String × String) → String → Option String
  | [], _ => none
  | (k, v) :: rest, n => if n = k then some v else lookupName rest n

/-- Embedding of color_to_hex (source lines 17-26).  A string starting with
"#" of length 4 has each of its three trailing characters doubled; any other
"#"-string is returned unchanged.  Otherwise the string is lowercased and
looked up in the CSS3 table (webcolors.name_to_hex); a failed lookup (the
ValueError branch) yields "#FFFFFF". -/
def color_to_hex (s : String) : String :=
  match s.data with
  | c :: rest =>
    if c = '#' then
      match rest with
      | [c1, c2, c3] => String.mk ['#', c1, c1, c2, c2, c3, c3]
      | _ => s
    else
      match lookupName css3NamesToHex (strLower s) with
      | some hex => hex
      | none => "#FFFFFF"
  | [] =>
      match lookupName css3NamesToHex (strLower s) with
      | some hex => hex
      | none => "#FFFFFF"

/-- Fueled worker for the hex discovery pass.  The fuel only bounds the
recursion depth so that the definition is structural (and hence evaluates
inside the kernel); the scan consumes at least one character per step, so
fuel equal to the text length is always enough (findHexF_congr). -/
def findHexF : Nat → List Char → List String
  | 0, _ => []
  | _ + 1, [] => []
  | n + 1, c :: cs =>
    if c = '#' ∧ 6 ≤ cs.length ∧ (cs.take 6).all isHexDig then
      String.mk ('#' :: cs.take 6) :: findHexF n (cs.drop 6)
    else if c = '#' ∧ 3 ≤ cs.length ∧ (cs.take 3).all isHexDig then
      String.mk ('#' :: cs.take 3) :: findHexF n (cs.drop 3)
    else
      findHexF n cs

/-- Embedding of the hex discovery pass (source lines 35-36):
re.findall of the pattern #(?:[a-fA-F0-9]{3}){1,2} over the text, leftmost
non-overlapping matches, the greedy {1,2} trying two digit triples before
one.  At a '#' the scan takes six following hex digits if present, else
three, else moves on; scanning resumes after each match. -/
def findHexTokens (l : List Char) : List String := findHexF l.length l

/-- Fueled worker for splitting a text into maximal word-character runs. -/
def wordRunsF : Nat → List Char → List (List Char)
  | 0, _ => []
  | _ + 1, [] => []
  | n + 1, c :: cs =>
    if isWordChar c then
      (c :: cs.takeWhile isWordChar) :: wordRunsF n (cs.dropWhile isWordChar)
    else
      wordRunsF n cs

/-- Maximal runs of word characters in a character list.  A whole-word
regex match \b(name)\b of an alphabetic name is exactly a maximal word-run
equal to that name, so the name discovery pass (source lines 38-40) reduces
to filtering these runs. -/
def wordRuns (l : List Char) : List (List Char) := wordRunsF l.length l

/-- Embedding of the name discovery pass (source lines 38-40): re.findall of
\b(name1|name2|...)\b over the text with re.IGNORECASE, names drawn from the
CSS3 table.  Because every name consists solely of word characters, a match
is exactly a maximal word-run whose lowercase form is a table key, and the
captured text keeps the casing it has in the input. -/
def findNameTokens (l : List Char) : List String :=
  ((wordRuns l).map String.mk).filter
    (fun w => (lookupName css3NamesToHex (strLower w)).isSome)

/-- Deduplication by exact (case-sensitive) string, keeping first
occurrences; models collecting the findall results into Python sets and
taking their union (source lines 36, 40, 42). -/
def dedupAux (seen : List String) : List String → List String
  | [] => []
  | s :: rest =>
    if seen.contains s then dedupAux seen rest
    else s :: dedupAux (s :: seen) rest

/-- Exact-string deduplication of the concatenated scan results. -/
def dedupKeepFirst (l : List String) : List String := dedupAux [] l

/-- Lexicographic (code-point) strict comparison of character lists, the
ordering Python uses on strings. -/
def charListLt : List Char → List Char → Bool
  | [], [] => false
  | [], _ :: _ => true
  | _ :: _, [] => false
  | a :: as, b :: bs => if a < b then true else if b < a then false else charListLt as bs

/-- Comparison used by sorted(..., key=str.lower): strictly smaller
lowercased key. -/
def lowerLt (a b : String) : Bool := charListLt (strLower a).data (strLower b).data

/-- Stable insertion into a list sorted by lowercased key. -/
def insertLower (s : String) : List String → List String
  | [] => [s]
  | t :: ts => if lowerLt s t then s :: t :: ts else t :: insertLower s ts

/-- Stable sort by case-insensitive key, models sorted(..., key=str.lower)
(source line 42). -/
def sortByLower : List String → List String
  | [] => []
  | s :: rest => insertLower s (sortByLower rest)

/-- Embedding of the discovery step (source lines 35-42): the union of the
hex pass and the name pass, deduplicated exactly, sorted by lowercased
key into self.found_colors. -/
def colorDiscovery (text : String) : List String :=
  sortByLower (dedupKeepFirst (findHexTokens text.data ++ findNameTokens text.data))

/-- Case-insensitive test that the pattern characters are an initial segment
of the text, folding both sides to lowercase as re.IGNORECASE does. -/
def startsWithCI : List Char → List Char → Bool
  | [], _ => true
  | _ :: _, [] => false
  | p :: ps, c :: cs => (p.toLower == c.toLower) && startsWithCI ps cs

/-- The \b word boundary after a match of pat at the front of l: the first
character past the match is absent or not a word character.  (Used only for
alphabetic patterns, whose final character is always a word character.) -/
def wordBoundaryAfter (pat l : List Char) : Bool :=
  match List.drop pat.length l with
  | [] => true
  | d :: _ => !isWordChar d

/-- Fueled worker for re.sub of a literal (re.escape-d) pattern with
re.IGNORECASE: leftmost non-overlapping case-insensitive occurrences of pat
are replaced by rep, scanning resuming after each consumed match.  One
character is consumed per step, so fuel equal to the text length suffices. -/
def replaceAllF : Nat → List Char → List Char → List Char → List Char
  | 0, _, _, l => l
  | _ + 1, _, _, [] => []
  | n + 1, pat, rep, c :: cs =>
    if pat ≠ [] ∧ startsWithCI pat (c :: cs) then
      rep ++ replaceAllF n pat rep (List.drop pat.length (c :: cs))
    else
      c :: replaceAllF n pat rep cs

/-- re.sub(re.escape(old), new, text, flags=re.IGNORECASE): the hex-token
branch of the replacement loop (source line 134, else-arm, and 135). -/
def replaceAllCI (pat rep text : List Char) : List Char :=
  replaceAllF text.length pat rep text

/-- Fueled worker for re.sub of a whole-word literal pattern
(\b + re.escape(old) + \b) with re.IGNORECASE, for alphabetic old.  The
boundary before a candidate match holds when the previous scanned character
is not a word character (or the scan is at the start); the boundary after
holds when the character past the match is absent or not a word character.
After a match the scan resumes past the matched text, whose last character
becomes the new previous character. -/
def replaceWordF : Nat → List Char → List Char → Bool → List Char → List Char
  | 0, _, _, _, l => l
  | _ + 1, _, _, _, [] => []
  | n + 1, pat, rep, prevWord, c :: cs =>
    if pat ≠ [] ∧ prevWord = false ∧ startsWithCI pat (c :: cs) ∧
        wordBoundaryAfter pat (c :: cs) then
      rep ++ replaceWordF n pat rep
        (isWordChar ((List.take pat.length (c :: cs)).getLastD c))
        (List.drop pat.length (c :: cs))
    else
      c :: replaceWordF n pat rep (isWordChar c) cs

/-- re.sub(r'\b' + re.escape(old) + r'\b', new, text, flags=re.IGNORECASE):
the named-color branch of the replacement loop (source lines 134-135). -/
def replaceWordCI (pat rep text : List Char) : List Char :=
  replaceWordF text.length pat rep false text

/-- One iteration of the replacement loop (source lines 133-135): alphabetic
keys get the whole-word pattern, all others the plain escaped pattern; both
are applied case-insensitively.  The replacement strings the program uses
are hex codes, which re.sub inserts literally. -/
def applyOne (text : String) (old new : String) : String :=
  if pyIsAlpha old then String.mk (replaceWordCI old.data new.data text.data)
  else String.mk (replaceAllCI old.data new.data text.data)

/-- The whole replacement loop of _save_and_exit (source lines 132-135):
the substitutions are applied one map entry after another, in insertion
order of the replacement map, starting from the original content. -/
def applyReplacements (reps : List (String × String)) (text : String) : String :=
  reps.foldl (fun acc p => applyOne acc p.1 p.2) text

/-- The parts of a pathlib.Path the save step uses: parent directory, stem,
and suffix.  with_name(stem + "-modified" + suffix) keeps the directory and
replaces the file name (source line 137). -/
structure FilePathModel where
  dir : String
  stem : String
  suffix : String
deriving DecidableEq, Repr

/-- The session state of ColorEditorApp that the logic claims concern:
the loaded file, its text, the discovery result self.found_colors, and the
accumulated replacement map self.replacements, kept as an insertion-ordered
association list exactly as a Python dict iterates. -/
structure Session where
  filePath : FilePathModel
  originalContent : String
  foundColors : List String
  replacements : List (String × String)
deriving DecidableEq, Repr

/-- ColorEditorApp.__init__ (source lines 29-42): the content is read, the
replacement map starts empty, and found_colors is the sorted discovery
result. -/
def Session.init (p : FilePathModel) (content : String) : Session :=
  { filePath := p
    originalContent := content
    foundColors := colorDiscovery content
    replacements := [] }

/-- Python dict assignment d[k] = v on an insertion-ordered association
list: an existing key keeps its position and gets the new value, a new key
is appended at the end. -/
def setKey : List (String × String) → String → String → List (String × String)
  | [], k, v => [(k, v)]
  | (k', v') :: rest, k, v =>
    if k' = k then (k, v) :: rest else (k', v') :: setKey rest k v

/-- The session states reachable through the GUI.  A state starts as
Session.init (file load).  Each swatch click (_on_swatch_click, source
lines 115-124) concerns one of the displayed rows, which __init__ created
exactly for the entries of found_colors (lines 94-95); if the picker
returns a color, replacements[original_color] = new_hex is recorded
(line 122), and if the picker is cancelled the state is unchanged (no
transition). -/
inductive Reachable : Session → Prop
  | init (p : FilePathModel) (content : String) : Reachable (Session.init p content)
  | pick (s : Session) (tok hex : String) (hs : Reachable s)
      (htok : tok ∈ s.foundColors) :
      Reachable { s with replacements := setKey s.replacements tok hex }

/-- _save_and_exit (source lines 126-141) as a pure description of its
file-system effect: with an empty replacement map nothing is written and
the window is just destroyed (None); otherwise the fully substituted text
is written to the sibling path stem + "-modified" + suffix in the same
directory. -/
def saveAndExit (s : Session) : Option (FilePathModel × String) :=
  if s.replacements = [] then none
  else
    some ({ dir := s.filePath.dir
            stem := s.filePath.stem ++ "-modified"
            suffix := s.filePath.suffix },
          applyReplacements s.replacements s.originalContent)

/-- tok occurs in the text as a whole word: the text splits around tok with
no word character adjacent on either side — the semantics of \btok\b for a
pattern made of word characters. -/
def wholeWordAt (tok text : String) : Prop :=
  ∃ pre post, text.data = pre ++ tok.data ++ post
    ∧ (∀ c, pre.getLast? = some c → isWordChar c = false)
    ∧ (∀ c, post.head? = some c → isWordChar c = false)

theorem findHexF_congr :
    ∀ (n : Nat) (l : List Char) (m : Nat), l.length ≤ n → l.length ≤ m →
      findHexF n l = findHexF m l := by
  intro n
  induction n with
  | zero =>
    intro l m hn _
    have hl : l = [] := List.eq_nil_of_length_eq_zero (Nat.le_zero.mp hn)
    subst hl
    cases m <;> rfl
  | succ n ih =>
    intro l m hn hm
    cases l with
    | nil => cases m <;> rfl
    | cons c cs =>
      cases m with
      | zero => simp at hm
      | succ k =>
        have hcs : cs.length ≤ n := by simpa using hn
        have hck : cs.length ≤ k := by simpa using hm
        by_cases h1 : c = '#' ∧ 6 ≤ cs.length ∧ (cs.take 6).all isHexDig
        · simp only [findHexF, if_pos h1]
          have := ih (cs.drop 6) k (by simp; omega) (by simp; omega)
          rw [this]
        · by_cases h2 : c = '#' ∧ 3 ≤ cs.length ∧ (cs.take 3).all isHexDig
          · simp only [findHexF, if_neg h1, if_pos h2]
            have := ih (cs.drop 3) k (by simp; omega) (by simp; omega)
            rw [this]
          · simp only [findHexF, if_neg h1, if_neg h2]
            exact ih cs k hcs hck

theorem findHexTokens_cons (c : Char) (cs : List Char) :
    findHexTokens (c :: cs) =
      if c = '#' ∧ 6 ≤ cs.length ∧ (cs.take 6).all isHexDig then
        String.mk ('#' :: cs.take 6) :: findHexTokens (cs.drop 6)
      else if c = '#' ∧ 3 ≤ cs.length ∧ (cs.take 3).all isHexDig then
        String.mk ('#' :: cs.take 3) :: findHexTokens (cs.drop 3)
      else findHexTokens cs := by
  show findHexF (cs.length + 1) (c :: cs) = _
  by_cases h1 : c = '#' ∧ 6 ≤ cs.length ∧ (cs.take 6).all isHexDig
  · simp only [findHexF, if_pos h1]
    rw [findHexF_congr cs.length (cs.drop 6) (cs.drop 6).length (by simp) le_rfl]
    rfl
  · by_cases h2 : c = '#' ∧ 3 ≤ cs.length ∧ (cs.take 3).all isHexDig
    · simp only [findHexF, if_neg h1, if_pos h2]
      rw [findHexF_congr cs.length (cs.drop 3) (cs.drop 3).length (by simp) le_rfl]
      rfl
    · simp only [findHexF, if_neg h1, if_neg h2]
      rfl

theorem findHexTokens_all_hex (l : List Char) (h : ∀ c ∈ l, isHexDig c = true) :
    findHexTokens l = [] := by
  induction l with
  | nil => rfl
  | cons c cs ih =>
    have hc : c ≠ '#' := by
      intro e
      have := h c (by simp)
      rw [e] at this
      simp [isHexDig] at this
    rw [findHexTokens_cons, if_neg (fun hh => hc hh.1), if_neg (fun hh => hc hh.1)]
    exact ih (fun d hd => h d (by simp [hd]))

theorem length_dropWhile_le_self (p : Char → Bool) (l : List Char) :
    (l.dropWhile p).length ≤ l.length := by
  induction l with
  | nil => simp [List.dropWhile]
  | cons c cs ih =>
    simp only [List.dropWhile]
    split
    · exact Nat.le_succ_of_le ih
    · simp

theorem head_dropWhile_false (p : Char → Bool) :
    ∀ (l : List Char) (c : Char), (l.dropWhile p).head? = some c → p c = false := by
  intro l
  induction l with
  | nil => intro c h; simp [List.dropWhile] at h
  | cons a as ih =>
    intro c h
    simp only [List.dropWhile] at h
    cases ha : p a with
    | true =>
      rw [ha] at h
      exact ih c h
    | false =>
      rw [ha] at h
      simp at h
      rw [← h]
      exact ha

theorem wordRunsF_congr :
    ∀ (n : Nat) (l : List Char) (m : Nat), l.length ≤ n → l.length ≤ m →
      wordRunsF n l = wordRunsF m l := by
  intro n
  induction n with
  | zero =>
    intro l m hn _
    have hl : l = [] := List.eq_nil_of_length_eq_zero (Nat.le_zero.mp hn)
    subst hl
    cases m <;> rfl
  | succ n ih =>
    intro l m hn hm
    cases l with
    | nil => cases m <;> rfl
    | cons c cs =>
      cases m with
      | zero => simp at hm
      | succ k =>
        have hcs : cs.length ≤ n := by simpa using hn
        have hck : cs.length ≤ k := by simpa using hm
        by_cases hc : isWordChar c
        · simp only [wordRunsF, if_pos hc]
          rw [ih (cs.dropWhile isWordChar) k
            (le_trans (length_dropWhile_le_self _ _) hcs)
            (le_trans (length_dropWhile_le_self _ _) hck)]
        · simp only [wordRunsF, if_neg hc]
          exact ih cs k hcs hck

theorem wordRuns_cons (c : Char) (cs : List Char) :
    wordRuns (c :: cs) =
      if isWordChar c then
        (c :: cs.takeWhile isWordChar) :: wordRuns (cs.dropWhile isWordChar)
      else wordRuns cs := by
  show wordRunsF (cs.length + 1) (c :: cs) = _
  by_cases hc : isWordChar c
  · simp only [wordRunsF, if_pos hc]
    rw [wordRunsF_congr cs.length (cs.dropWhile isWordChar) (cs.dropWhile isWordChar).length
      (length_dropWhile_le_self _ _) le_rfl]
    rfl
  · simp only [wordRunsF, if_neg hc]
    rfl

theorem wordRuns_decomp :
    ∀ (n : Nat) (l : List Char), l.length ≤ n → ∀ r ∈ wordRuns l,
      ∃ pre post, l = pre ++ r ++ post
        ∧ (∀ c, pre.getLast? = some c → isWordChar c = false)
        ∧ (∀ c, post.head? = some c → isWordChar c = false)
        ∧ r ≠ [] ∧ (∀ c ∈ r, isWordChar c = true) := by
  intro n
  induction n with
  | zero =>
    intro l hl r hr
    have h0 : l = [] := List.eq_nil_of_length_eq_zero (Nat.le_zero.mp hl)
    subst h0
    simp [wordRuns, wordRunsF] at hr
  | succ n ih =>
    intro l hl r hr
    cases l with
    | nil => simp [wordRuns, wordRunsF] at hr
    | cons c cs =>
      have hcs : cs.length ≤ n := by simpa using hl
      rw [wordRuns_cons] at hr
      by_cases hc : isWordChar c
      · rw [if_pos hc] at hr
        rcases List.mem_cons.mp hr with rfl | hr'
        · refine ⟨[], cs.dropWhile isWordChar, ?_, ?_, ?_, ?_, ?_⟩
          · simp [List.takeWhile_append_dropWhile]
          · intro d hd
            simp at hd
          · intro d hd
            exact head_dropWhile_false _ cs d hd
          · simp
          · intro d hd
            rcases List.mem_cons.mp hd with rfl | hd'
            · exact hc
            · exact List.mem_takeWhile_imp hd'
        · obtain ⟨pre, post, hdec, hpre, hpost, hne, hall⟩ :=
            ih (cs.dropWhile isWordChar)
              (le_trans (length_dropWhile_le_self _ _) hcs) r hr'
          cases pre with
          | nil =>
            exfalso
            cases r with
            | nil => exact hne rfl
            | cons rc rs =>
              have h1 : (cs.dropWhile isWordChar).head? = some rc := by
                rw [hdec]
                simp
              have h2 := head_dropWhile_false isWordChar cs rc h1
              have h3 := hall rc (by simp)
              rw [h3] at h2
              simp at h2
          | cons p0 ps =>
            refine ⟨c :: (cs.takeWhile isWordChar ++ (p0 :: ps)), post, ?_, ?_, hpost, hne, hall⟩
            · have hsplit : cs = cs.takeWhile isWordChar ++ cs.dropWhile isWordChar :=
                (List.takeWhile_append_dropWhile _ _).symm
              calc c :: cs
                  = c :: (cs.takeWhile isWordChar ++ cs.dropWhile isWordChar) := by
                    rw [← hsplit]
                _ = c :: (cs.takeWhile isWordChar ++ ((p0 :: ps) ++ r ++ post)) := by
                    rw [hdec]
                _ = (c :: (cs.takeWhile isWordChar ++ (p0 :: ps))) ++ r ++ post := by
                    simp
            · intro d hd
              apply hpre d
              rw [show c :: (cs.takeWhile isWordChar ++ (p0 :: ps)) =
                    (c :: cs.takeWhile isWordChar) ++ (p0 :: ps) from rfl] at hd
              rw [List.getLast?_append] at hd
              rwa [Option.or_of_isSome (by simp [List.getLast?_isSome])] at hd
      · rw [if_neg hc] at hr
        obtain ⟨pre, post, hdec, hpre, hpost, hne, hall⟩ := ih cs hcs r hr
        refine ⟨c :: pre, post, ?_, ?_, hpost, hne, hall⟩
        · rw [show (c :: pre) ++ r ++ post = c :: (pre ++ r ++ post) from rfl, ← hdec]
        · intro d hd
          cases pre with
          | nil =>
            simp at hd
            rw [← hd]
            exact Bool.not_eq_true _ |>.mp hc
          | cons q qs =>
            rw [List.getLast?_cons_cons] at hd
            exact hpre d hd

theorem mem_setKey (m : List (String × String)) (k v : String) :
    ∀ kv ∈ setKey m k v, kv.1 = k ∨ kv ∈ m := by
  induction m with
  | nil =>
    intro kv hkv
    simp [setKey] at hkv
    left
    rw [hkv]
  | cons e rest ih =>
    intro kv hkv
    obtain ⟨k', v'⟩ := e
    simp only [setKey] at hkv
    by_cases he : k' = k
    · rw [if_pos he] at hkv
      rcases List.mem_cons.mp hkv with rfl | h2
      · left
        rfl
      · right
        exact List.mem_cons_of_mem _ h2
    · rw [if_neg he] at hkv
      rcases List.mem_cons.mp hkv with rfl | h2
      · right
        exact List.mem_cons_self _ _
      · rcases ih kv h2 with h3 | h3
        · left
          exact h3
        · right
          exact List.mem_cons_of_mem _ h3

theorem reachable_invariant (s : Session) (h : Reachable s) :
    s.foundColors = colorDiscovery s.originalContent ∧
      ∀ kv ∈ s.replacements, kv.1 ∈ s.foundColors := by
  induction h with
  | init p content =>
    constructor
    · rfl
    · intro kv hkv
      simp [Session.init] at hkv
  | pick s tok hex hs htok ih =>
    constructor
    · exact ih.1
    · intro kv hkv
      rcases mem_setKey s.replacements tok hex kv hkv with h1 | h1
      · rw [h1]
        exact htok
      · exact ih.2 kv h1

/-- C1 (counterexample): the claim says substitution of {"#fff": "#000000"}
over "bg:#fff; x:#FFFABC" yields "bg:#000000; x:#FFFABC", leaving the longer
token "#FFFABC" untouched.  The code's case-insensitive substring re.sub
also rewrites the "#FFF" prefix inside "#FFFABC", so the claimed output is
not produced. -/
theorem hex_substitution_claim_counterexample :
    applyReplacements [("#fff", "#000000")] "bg:#fff; x:#FFFABC" ≠
      "bg:#000000; x:#FFFABC" := by
  decide

/-- C1 (amended): substitution of {"#fff": "#000000"} over
"bg:#fff; x:#FFFABC" yields "bg:#000000; x:#000000ABC": the escaped
fixed-string pattern is matched substring-wise and case-insensitively, so
the occurrence of "#fff" at the start of the longer token "#FFFABC" is
replaced as well (the prefix-collision ambiguity the spec itself records
in its design notes). -/
theorem hex_substitution_rewrites_longer_token :
    applyReplacements [("#fff", "#000000")] "bg:#fff; x:#FFFABC" =
      "bg:#000000; x:#000000ABC" := by
  decide

/-- C2: hex normalization doubles each digit of a 4-character "#xyz" input,
returns any 7-character "#"+6-digit input unchanged, resolves a known CSS3
name through the case-insensitive table lookup (normalize("red") =
"#ff0000"), and falls back to "#FFFFFF" on every unrecognized name
(normalize("not-a-color") = "#FFFFFF"). -/
theorem color_to_hex_spec :
    (∀ c1 c2 c3 : Char,
        color_to_hex (String.mk ['#', c1, c2, c3]) =
          String.mk ['#', c1, c1, c2, c2, c3, c3])
    ∧ (∀ l : List Char, l.length = 6 →
        color_to_hex (String.mk ('#' :: l)) = String.mk ('#' :: l))
    ∧ (∀ (n hex : String), n.data.head? ≠ some '#' →
        lookupName css3NamesToHex (strLower n) = some hex → color_to_hex n = hex)
    ∧ (∀ n : String, n.data.head? ≠ some '#' →
        lookupName css3NamesToHex (strLower n) = none → color_to_hex n = "#FFFFFF")
    ∧ color_to_hex "red" = "#ff0000"
    ∧ color_to_hex "not-a-color" = "#FFFFFF" := by
  refine ⟨?_, ?_, ?_, ?_, by decide, by decide⟩
  · intro c1 c2 c3
    rfl
  · intro l hl
    match l, hl with
    | [a, b, c, d, e, f], _ => rfl
  · intro n hex hhead hlook
    obtain ⟨data⟩ := n
    cases data with
    | nil =>
      simp only [color_to_hex]
      rw [hlook]
    | cons c rest =>
      have hc : ¬ c = '#' := by
        intro e
        apply hhead
        rw [e]
        rfl
      simp only [color_to_hex]
      rw [if_neg hc, hlook]
  · intro n hhead hlook
    obtain ⟨data⟩ := n
    cases data with
    | nil =>
      simp only [color_to_hex]
      rw [hlook]
    | cons c rest =>
      have hc : ¬ c = '#' := by
        intro e
        apply hhead
        rw [e]
        rfl
      simp only [color_to_hex]
      rw [if_neg hc, hlook]

/-- C2 witness: the general clauses of color_to_hex_spec instantiated at
concrete inputs, including the fallback clause at the unrecognized name
"blurple". -/
theorem color_to_hex_spec_witness :
    color_to_hex (String.mk ['#', 'a', 'b', 'c']) =
        String.mk ['#', 'a', 'a', 'b', 'b', 'c', 'c'] ∧
      color_to_hex (String.mk ('#' :: "AABBCC".data)) =
        String.mk ('#' :: "AABBCC".data) ∧
      color_to_hex "tomato" = "#ff6347" ∧
      color_to_hex "blurple" = "#FFFFFF" :=
  ⟨color_to_hex_spec.1 'a' 'b' 'c',
   color_to_hex_spec.2.1 "AABBCC".data (by decide),
   color_to_hex_spec.2.2.1 "tomato" "#ff6347" (by decide) (by decide),
   color_to_hex_spec.2.2.2.1 "blurple" (by decide) (by decide)⟩

/-- C3: discovery over "color: #fff; border: red; background: #FF00FF;"
returns exactly the tokens "#fff", "red", "#FF00FF" — the deduplicated
union of the hex pass and the name pass — ordered by case-insensitive
lexicographic key as ["#FF00FF", "#fff", "red"]. -/
theorem discovery_example_exact :
    colorDiscovery "color: #fff; border: red; background: #FF00FF;" =
      ["#FF00FF", "#fff", "red"] := by
  decide

/-- C4: the name pass only ever produces tokens that occur as whole words
(word boundaries on both sides) whose lowercase form is a CSS3 name; in
particular discovery over "credit" and over "bored" does not produce
"red". -/
theorem name_pass_whole_word :
    (∀ (text tok : String), tok ∈ findNameTokens text.data →
        wholeWordAt tok text ∧
          (lookupName css3NamesToHex (strLower tok)).isSome = true)
    ∧ "red" ∉ colorDiscovery "credit"
    ∧ "red" ∉ colorDiscovery "bored" := by
  refine ⟨?_, by decide, by decide⟩
  intro text tok htok
  unfold findNameTokens at htok
  rw [List.mem_filter] at htok
  obtain ⟨hmem, hlook⟩ := htok
  rw [List.mem_map] at hmem
  obtain ⟨r, hr, hmk⟩ := hmem
  obtain ⟨pre, post, hdec, hpre, hpost, hne, hall⟩ :=
    wordRuns_decomp text.data.length text.data le_rfl r hr
  subst hmk
  exact ⟨⟨pre, post, hdec, hpre, hpost⟩, hlook⟩

/-- C4 witness: the general clause of name_pass_whole_word instantiated for
the token "red" discovered in "x red y". -/
theorem name_pass_whole_word_witness :
    wholeWordAt "red" "x red y" ∧
      (lookupName css3NamesToHex (strLower "red")).isSome = true :=
  name_pass_whole_word.1 "x red y" "red" (by decide)

/-- C5: substituting the alphabetic key "red" by "#123456" in
"Red box, red line, credited" replaces both whole-word occurrences,
case-insensitively, with the one replacement hex, and leaves the embedded
occurrence inside "credited" unchanged. -/
theorem named_substitution_whole_word_example :
    applyReplacements [("red", "#123456")] "Red box, red line, credited" =
      "#123456 box, #123456 line, credited" := by
  decide

/-- C6: applying an empty replacement map returns the input text unchanged:
the replacement loop runs zero iterations. -/
theorem empty_map_substitution_identity :
    ∀ text : String, applyReplacements [] text = text :=
  fun _ => rfl

/-- C7: in every reachable session state, every key of the replacement map
is a token of the discovery result computed for the same file's content:
the map starts empty and grows only through picks on discovered tokens. -/
theorem replacement_keys_discovered :
    ∀ s : Session, Reachable s →
      ∀ kv ∈ s.replacements, kv.1 ∈ colorDiscovery s.originalContent := by
  intro s h kv hkv
  obtain ⟨hfound, hkeys⟩ := reachable_invariant s h
  rw [← hfound]
  exact hkeys kv hkv

/-- C7 witness: replacement_keys_discovered applied to the concrete session
obtained by loading "x red y" and picking "#112233" for "red". -/
theorem replacement_keys_discovered_witness :
    ("red", "#112233").1 ∈ colorDiscovery "x red y" :=
  replacement_keys_discovered
    { Session.init ⟨"/tmp", "demo", ".css"⟩ "x red y" with
        replacements := setKey [] "red" "#112233" }
    (Reachable.pick (Session.init ⟨"/tmp", "demo", ".css"⟩ "x red y")
      "red" "#112233"
      (Reachable.init ⟨"/tmp", "demo", ".css"⟩ "x red y") (by decide))
    ("red", "#112233") (by decide)

/-- C8: with an empty replacement map the save action produces no output
file and the session just ends. -/
theorem save_empty_map_no_output :
    ∀ s : Session, s.replacements = [] → saveAndExit s = none := by
  intro s h
  simp [saveAndExit, h]

/-- C8 witness: save_empty_map_no_output on a freshly loaded session. -/
theorem save_empty_map_no_output_witness :
    saveAndExit (Session.init ⟨"/tmp", "style", ".css"⟩ "color: red;") = none :=
  save_empty_map_no_output (Session.init ⟨"/tmp", "style", ".css"⟩ "color: red;") rfl

/-- C9: with a nonempty replacement map the save action writes the fully
substituted text to the sibling file named stem ++ "-modified" ++ suffix in
the same directory. -/
theorem save_writes_modified_sibling :
    ∀ s : Session, s.replacements ≠ [] →
      saveAndExit s = some
        ({ dir := s.filePath.dir
           stem := s.filePath.stem ++ "-modified"
           suffix := s.filePath.suffix },
         applyReplacements s.replacements s.originalContent) := by
  intro s h
  simp [saveAndExit, h]

/-- C9 witness: save_writes_modified_sibling on a session whose file
"style.css" contains two occurrences of "#fff", both replaced by "#112233"
in the written content at path stem "style-modified". -/
theorem save_writes_modified_sibling_witness :
    saveAndExit { Session.init ⟨"/tmp", "style", ".css"⟩ "a: #fff; b: #fff;" with
                    replacements := [("#fff", "#112233")] } =
      some (⟨"/tmp", "style-modified", ".css"⟩, "a: #112233; b: #112233;") := by
  rw [save_writes_modified_sibling
    { Session.init ⟨"/tmp", "style", ".css"⟩ "a: #fff; b: #fff;" with
        replacements := [("#fff", "#112233")] } (by decide)]
  decide

/-- C10: on "#" followed by a run of 4 or 5 hex digits the hex pass
discovers the 3-digit token made of the first three digits, and on "#"
followed by 7 or more hex digits it discovers the 6-digit token made of the
first six: discovered hex tokens need not end where the digit run ends. -/
theorem hex_pass_digit_run_truncation :
    ∀ ds : List Char, (∀ c ∈ ds, isHexDig c = true) →
      (4 ≤ ds.length → ds.length ≤ 5 →
        findHexTokens ('#' :: ds) = [String.mk ('#' :: ds.take 3)])
      ∧ (7 ≤ ds.length →
        findHexTokens ('#' :: ds) = [String.mk ('#' :: ds.take 6)]) := by
  intro ds hds
  constructor
  · intro h4 h5
    have hno6 : ¬ ('#' = '#' ∧ 6 ≤ ds.length ∧ (ds.take 6).all isHexDig) := by
      rintro ⟨-, h6, -⟩
      omega
    have hyes3 : '#' = '#' ∧ 3 ≤ ds.length ∧ (ds.take 3).all isHexDig := by
      refine ⟨rfl, by omega, ?_⟩
      simp only [List.all_eq_true]
      intro c hc
      exact hds c (List.mem_of_mem_take hc)
    rw [findHexTokens_cons, if_neg hno6, if_pos hyes3,
      findHexTokens_all_hex (ds.drop 3) (fun c hc => hds c (List.mem_of_mem_drop hc))]
  · intro h7
    have hyes6 : '#' = '#' ∧ 6 ≤ ds.length ∧ (ds.take 6).all isHexDig := by
      refine ⟨rfl, by omega, ?_⟩
      simp only [List.all_eq_true]
      intro c hc
      exact hds c (List.mem_of_mem_take hc)
    rw [findHexTokens_cons, if_pos hyes6,
      findHexTokens_all_hex (ds.drop 6) (fun c hc => hds c (List.mem_of_mem_drop hc))]

/-- C10 witness: hex_pass_digit_run_truncation instantiated on "#abcd"
(four digits, yielding "#abc") and on "#0123456" (seven digits, yielding
"#012345"). -/
theorem hex_pass_digit_run_truncation_witness :
    findHexTokens ('#' :: ['a', 'b', 'c', 'd']) =
        [String.mk ('#' :: ['a', 'b', 'c', 'd'].take 3)] ∧
      findHexTokens ('#' :: ['0', '1', '2', '3', '4', '5', '6']) =
        [String.mk ('#' :: ['0', '1', '2', '3', '4', '5', '6'].take 6)] :=
  ⟨(hex_pass_digit_run_truncation ['a', 'b', 'c', 'd'] (by decide)).1
      (by decide) (by decide),
   (hex_pass_digit_run_truncation ['0', '1', '2', '3', '4', '5', '6']
      (by decide)).2 (by decide)⟩
